import Mathlib

/-!
Verification of the library-catalog binary search tree (`src/ABB/biblioteca.c`).

The C program stores book records (`Livro` nodes) in a binary search tree
ordered by integer id, supports insert / search / remove / borrow / return /
count, and persists the catalog to a `|`-separated line file in balanced
(midpoint-first) order, reloading it with `fgets` + `sscanf` + ordinary
insertion.

The embedding below translates each C function into a pure Lean function:
  * pointers to tree nodes become the inductive `Livro`;
  * `char` arrays become `List Char`;
  * C `int` becomes `Int` (ids, availability flags);
  * in-place mutation through a node pointer obtained from
    `buscarLivroRecursivo` becomes `setDisponivel`, which rewrites the
    node reached by the exact same search path;
  * the output `FILE` becomes the list of emitted lines (`List (List Char)`),
    and reading a file becomes folding over its list of lines exactly as the
    `while (fgets(...))` loop does;
  * `sscanf(linha, "%d|%[^|]|%[^|]|%d", ...)` is modelled field by field,
    including its treatment of partial matches: variables corresponding to
    unmatched conversions keep their previous values, which is why
    `carregarLivros` threads a `ScanState` through the loop (the C locals
    `id, titulo, autor, disponivel` persist across iterations).
-/

namespace Biblioteca

open scoped List

/-- The data carried by one tree node of `struct Livro`
(id, titulo, autor, disponivel), without the child pointers. -/
structure Registro where
  id : Int
  titulo : List Char
  autor : List Char
  disponivel : Int
deriving DecidableEq, Repr

/-- A (sub)tree of `struct Livro` nodes: either the null pointer or a node
with its record fields and the `esq`/`dir` children. -/
inductive Livro where
  | nil : Livro
  | node (id : Int) (titulo autor : List Char) (disponivel : Int)
      (esq dir : Livro) : Livro
deriving DecidableEq, Repr

/-- `criarBiblioteca`: a fresh library has a null root.
(`struct Biblioteca` only wraps the root pointer, so the model identifies a
library with its root tree.) -/
def criarBiblioteca : Livro := Livro.nil

/-- `criarLivro`: a fresh node with the given fields, `disponivel = 1` and
null children. -/
def criarLivro (id : Int) (titulo autor : List Char) : Livro :=
  Livro.node id titulo autor 1 Livro.nil Livro.nil

/-- `inserirLivroRecursivo`: descend by comparison, attach a fresh node at the
first null link; if the id is found on the path, do nothing. -/
def inserirLivroRecursivo (raiz : Livro) (id : Int) (titulo autor : List Char) :
    Livro :=
  match raiz with
  | .nil => criarLivro id titulo autor
  | .node k ti au d esq dir =>
    if id < k then
      .node k ti au d (inserirLivroRecursivo esq id titulo autor) dir
    else if k < id then
      .node k ti au d esq (inserirLivroRecursivo dir id titulo autor)
    else
      .node k ti au d esq dir

/-- `inserirLivro`: insert at the root. -/
def inserirLivro (bib : Livro) (id : Int) (titulo autor : List Char) : Livro :=
  inserirLivroRecursivo bib id titulo autor

/-- `buscarLivroRecursivo`: standard BST search; the returned node pointer is
modelled by the record stored at the found node. -/
def buscarLivroRecursivo (raiz : Livro) (id : Int) : Option Registro :=
  match raiz with
  | .nil => none
  | .node k ti au d esq dir =>
    if k = id then some ⟨k, ti, au, d⟩
    else if id < k then buscarLivroRecursivo esq id
    else buscarLivroRecursivo dir id

/-- `buscarLivro`: search from the root. -/
def buscarLivro (bib : Livro) (id : Int) : Option Registro :=
  buscarLivroRecursivo bib id

/-- Writing through the pointer returned by `buscarLivroRecursivo`
(`livro->disponivel = d`): rewrite the availability of the node reached by
the same search path, leaving everything else untouched. -/
def setDisponivel (raiz : Livro) (id : Int) (d : Int) : Livro :=
  match raiz with
  | .nil => .nil
  | .node k ti au dv esq dir =>
    if k = id then .node k ti au d esq dir
    else if id < k then .node k ti au dv (setDisponivel esq id d) dir
    else .node k ti au dv esq (setDisponivel dir id d)

/-- `encontrarMenor`: the leftmost node of a subtree (`NULL` on an empty
tree), as its record. -/
def encontrarMenor (raiz : Livro) : Option Registro :=
  match raiz with
  | .nil => none
  | .node k ti au d esq _ =>
    match encontrarMenor esq with
    | some r => some r
    | none => some ⟨k, ti, au, d⟩

/-- `removerLivroRecursivo`: BST deletion with the three cases of the C code
(no left child, no right child, two children with successor copy). -/
def removerLivroRecursivo (raiz : Livro) (id : Int) : Livro :=
  match raiz with
  | .nil => .nil
  | .node k ti au d esq dir =>
    if id < k then .node k ti au d (removerLivroRecursivo esq id) dir
    else if k < id then .node k ti au d esq (removerLivroRecursivo dir id)
    else
      match esq, dir with
      | .nil, _ => dir
      | _, .nil => esq
      | _, _ =>
        match encontrarMenor dir with
        | some temp =>
          .node temp.id temp.titulo temp.autor temp.disponivel esq
            (removerLivroRecursivo dir temp.id)
        | none => .nil

/-- `removerLivro`: remove at the root. -/
def removerLivro (bib : Livro) (id : Int) : Livro :=
  removerLivroRecursivo bib id

/-- `listarLivrosRecursivo`: the in-order sequence of printed records
(left, self, right). -/
def listarLivrosRecursivo (raiz : Livro) : List Registro :=
  match raiz with
  | .nil => []
  | .node k ti au d esq dir =>
    listarLivrosRecursivo esq ++ ⟨k, ti, au, d⟩ :: listarLivrosRecursivo dir

/-- The ids of the catalog in in-order sequence. -/
def chaves (raiz : Livro) : List Int :=
  (listarLivrosRecursivo raiz).map Registro.id

/-- The strict BST invariant of the C comments: at every node all left ids
are strictly smaller and all right ids strictly larger. -/
def isBST (raiz : Livro) : Bool :=
  match raiz with
  | .nil => true
  | .node k _ _ _ esq dir =>
    (chaves esq).all (fun x => decide (x < k)) &&
      (chaves dir).all (fun x => decide (k < x)) &&
      isBST esq && isBST dir

/-- `contarLivros`: number of nodes. -/
def contarLivros (raiz : Livro) : Nat :=
  match raiz with
  | .nil => 0
  | .node _ _ _ _ esq dir => 1 + contarLivros esq + contarLivros dir

/-- Outcome messages printed by `emprestarLivro` / `devolverLivro`. -/
inductive Mensagem where
  | sucesso : Mensagem
  | indisponivel : Mensagem
  | jaDisponivel : Mensagem
  | naoEncontrado : Mensagem
deriving DecidableEq, Repr

/-- `emprestarLivro`: search the id; if found and available flip the flag to 0
through the returned pointer, otherwise leave the tree as is. Returns the new
tree and the printed outcome. -/
def emprestarLivro (bib : Livro) (id : Int) : Livro × Mensagem :=
  match buscarLivro bib id with
  | some livro =>
    if livro.disponivel ≠ 0 then (setDisponivel bib id 0, .sucesso)
    else (bib, .indisponivel)
  | none => (bib, .naoEncontrado)

/-- `devolverLivro`: search the id; if found and unavailable flip the flag to
1, otherwise leave the tree as is. -/
def devolverLivro (bib : Livro) (id : Int) : Livro × Mensagem :=
  match buscarLivro bib id with
  | some livro =>
    if livro.disponivel = 0 then (setDisponivel bib id 1, .sucesso)
    else (bib, .jaDisponivel)
  | none => (bib, .naoEncontrado)

/-- `armazenarLivrosEmOrdem`: append the records to the vector in in-order
sequence (the C version writes through `vetor[(*pos)++]`). -/
def armazenarLivrosEmOrdem (raiz : Livro) (vetor : List Registro) :
    List Registro :=
  match raiz with
  | .nil => vetor
  | .node k ti au d esq dir =>
    armazenarLivrosEmOrdem dir (armazenarLivrosEmOrdem esq vetor ++ [⟨k, ti, au, d⟩])

/-! ### The persisted line format

`fprintf(arquivo, "%d|%s|%s|%d\n", ...)` renders the id and the availability
flag in decimal and joins the four fields with bars.  We model the decimal
rendering of `%d` explicitly so that the `sscanf` reading side can be proved
to invert it. -/

/-- The decimal digit characters. -/
def digitChar (d : Nat) : Char :=
  match d with
  | 0 => '0' | 1 => '1' | 2 => '2' | 3 => '3' | 4 => '4'
  | 5 => '5' | 6 => '6' | 7 => '7' | 8 => '8' | 9 => '9'
  | _ => '*'

/-- Decimal rendering of a natural number, most significant digit first
(the digit sequence `printf` emits for a non-negative value). -/
def natChars (n : Nat) : List Char :=
  if n < 10 then [digitChar n]
  else natChars (n / 10) ++ [digitChar (n % 10)]
  decreasing_by exact Nat.div_lt_self (by omega) (by omega)

/-- `%d` rendering of a signed integer. -/
def intChars (i : Int) : List Char :=
  if i < 0 then '-' :: natChars i.natAbs else natChars i.toNat

/-- One line of the persisted file, newline included, exactly as
`fprintf(arquivo, "%d|%s|%s|%d\n", id, titulo, autor, disponivel)` emits it. -/
def formatLine (r : Registro) : List Char :=
  intChars r.id ++ '|' :: (r.titulo ++ '|' :: (r.autor ++ '|' ::
    (intChars r.disponivel ++ ['\n'])))

/-- `salvarBalanceadoRecursivo`: write the middle record of
`vetor[inicio..fim]`, then recurse on the left half, then on the right half.
The emitted lines are collected in order. -/
def salvarBalanceadoRecursivo (vetor : List Registro) (inicio fim : Int) :
    List (List Char) :=
  if inicio ≤ fim then
    let meio := (inicio + fim) / 2
    let livro := vetor.getD meio.toNat ⟨0, [], [], 0⟩
    formatLine livro ::
      (salvarBalanceadoRecursivo vetor inicio (meio - 1) ++
        salvarBalanceadoRecursivo vetor (meio + 1) fim)
  else []
  termination_by (fim + 1 - inicio).toNat
  decreasing_by all_goals omega

/-- `salvarLivrosBalanceado`: flatten the tree in order into a vector of
`contarLivros` records, then emit it midpoint-first. -/
def salvarLivrosBalanceado (raiz : Livro) : List (List Char) :=
  let n := contarLivros raiz
  let vetor := armazenarLivrosEmOrdem raiz []
  salvarBalanceadoRecursivo vetor 0 ((n : Int) - 1)

/-- `salvarLivros` just defers to the balanced save. -/
def salvarLivros (raiz : Livro) : List (List Char) :=
  salvarLivrosBalanceado raiz

/-! ### Reading the file back: the `sscanf` model

`carregarLivros` calls `sscanf(linha, "%d|%[^|]|%[^|]|%d", &id, titulo,
autor, &disponivel)` and ignores its return value, so conversions that fail
leave the corresponding C locals at their previous values.  `ScanState`
carries those four locals across loop iterations. -/

/-- The four C locals of `carregarLivros` that `sscanf` writes into. -/
structure ScanState where
  id : Int
  titulo : List Char
  autor : List Char
  disponivel : Int
deriving DecidableEq, Repr

/-- `isspace` of the C locale: the characters `%d` skips before the number. -/
def isSpaceChar (c : Char) : Bool :=
  c = ' ' || c = '\t' || c = '\n' || c = '\r' ||
    c = Char.ofNat 11 || c = Char.ofNat 12

/-- Numeric value of a decimal digit character. -/
def digitVal (c : Char) : Nat := c.toNat - 48

/-- Value of a digit string, most significant digit first. -/
def digitsVal (ds : List Char) : Nat :=
  ds.foldl (fun a c => a * 10 + digitVal c) 0

/-- Greedily read a nonempty run of decimal digits; fail when the input does
not start with a digit. -/
def readNat (cs : List Char) : Option (Nat × List Char) :=
  let ds := cs.takeWhile Char.isDigit
  if ds = [] then none
  else some (digitsVal ds, cs.dropWhile Char.isDigit)

/-- An optional sign in front of a `%d` conversion. -/
def readSign (cs : List Char) : Bool × List Char :=
  match cs with
  | [] => (false, [])
  | c :: rest =>
    if c = '-' then (true, rest)
    else if c = '+' then (false, rest)
    else (false, c :: rest)

/-- The `%d` conversion: skip whitespace, read an optional sign and a
nonempty digit run. -/
def readInt (cs : List Char) : Option (Int × List Char) :=
  match readSign (cs.dropWhile isSpaceChar) with
  | (neg, cs2) =>
    match readNat cs2 with
    | some (n, rest) => some (if neg then -(n : Int) else (n : Int), rest)
    | none => none

/-- The `%[^|]` conversion: a nonempty run of characters other than `'|'`. -/
def readSeg (cs : List Char) : Option (List Char × List Char) :=
  let ds := cs.takeWhile (fun c => !(c = '|'))
  if ds = [] then none
  else some (ds, cs.dropWhile (fun c => !(c = '|')))

/-- A literal character of the format string. -/
def matchChar (c : Char) (cs : List Char) : Option (List Char) :=
  match cs with
  | x :: rest => if x = c then some rest else none
  | [] => none

/-- `sscanf(linha, "%d|%[^|]|%[^|]|%d", &id, titulo, autor, &disponivel)`:
conversions are attempted left to right and the scan stops at the first
failure, leaving the remaining locals untouched. -/
def sscanfLinha (linha : List Char) (st : ScanState) : ScanState :=
  match readInt linha with
  | none => st
  | some (i, r1) =>
    match matchChar '|' r1 with
    | none => { st with id := i }
    | some r2 =>
      match readSeg r2 with
      | none => { st with id := i }
      | some (t, r3) =>
        match matchChar '|' r3 with
        | none => { st with id := i, titulo := t }
        | some r4 =>
          match readSeg r4 with
          | none => { st with id := i, titulo := t }
          | some (a, r5) =>
            match matchChar '|' r5 with
            | none => { st with id := i, titulo := t, autor := a }
            | some r6 =>
              match readInt r6 with
              | none => { st with id := i, titulo := t, autor := a }
              | some (d, _) => ⟨i, t, a, d⟩

/-- `carregarLivros`: for every line of the file run `sscanfLinha`, insert a
book with the scanned id/titulo/autor, then look the id up and overwrite its
availability with the scanned flag.  `st` holds the values of the four C
locals before the first line is read (they are uninitialised in the C code
and survive from one iteration to the next). -/
def carregarLivros (bib : Livro) (linhas : List (List Char)) (st : ScanState) :
    Livro :=
  match linhas with
  | [] => bib
  | linha :: resto =>
    let st1 := sscanfLinha linha st
    let bib1 := inserirLivro bib st1.id st1.titulo st1.autor
    let bib2 :=
      match buscarLivro bib1 st1.id with
      | some _ => setDisponivel bib1 st1.id st1.disponivel
      | none => bib1
    carregarLivros bib2 resto st1

/-! ### Auxiliary definitions for the statements and proofs -/

/-- A text field that fits one field of the persisted line format: nonempty
(`%[^|]` must match at least one character), without the `'|'` separator and
without a line break. -/
abbrev GoodStr (s : List Char) : Prop :=
  s ≠ [] ∧ '|' ∉ s ∧ '\n' ∉ s

/-- A record whose text fields fit the persisted line format. -/
abbrev GoodReg (r : Registro) : Prop :=
  GoodStr r.titulo ∧ GoodStr r.autor

/-- Build a catalog by inserting a sequence of (id, titulo, autor) triples
into an empty library, in order. -/
def inserirLista (l : List (Int × List Char × List Char)) : Livro :=
  l.foldl (fun bib e => inserirLivro bib e.1 e.2.1 e.2.2) criarBiblioteca

/-- The records selected by `salvarBalanceadoRecursivo`, in emission order
(the same recursion, without the formatting). -/
def salvarRegistrosRec (vetor : List Registro) (inicio fim : Int) :
    List Registro :=
  if inicio ≤ fim then
    let meio := (inicio + fim) / 2
    vetor.getD meio.toNat ⟨0, [], [], 0⟩ ::
      (salvarRegistrosRec vetor inicio (meio - 1) ++
        salvarRegistrosRec vetor (meio + 1) fim)
  else []
  termination_by (fim + 1 - inicio).toNat
  decreasing_by all_goals omega

/-- The effect of one loop iteration of `carregarLivros` on the tree when the
line parses completely into the record `r`: insert, then overwrite the
availability of the found node. -/
def carregarRegistro (bib : Livro) (r : Registro) : Livro :=
  setDisponivel (inserirLivro bib r.id r.titulo r.autor) r.id r.disponivel

/-- The effect of `carregarLivros` on the tree for a file whose every line
parses completely, as a fold over the parsed records. -/
def carregarRegistros (bib : Livro) (regs : List Registro) : Livro :=
  regs.foldl carregarRegistro bib

/-! ### Basic lemmas about the traversal and the invariant -/

@[simp]
theorem listar_nil : listarLivrosRecursivo Livro.nil = [] := rfl

@[simp]
theorem listar_node (k : Int) (ti au : List Char) (d : Int) (l r : Livro) :
    listarLivrosRecursivo (Livro.node k ti au d l r) =
      listarLivrosRecursivo l ++ ⟨k, ti, au, d⟩ :: listarLivrosRecursivo r := rfl

@[simp]
theorem chaves_nil : chaves Livro.nil = [] := rfl

@[simp]
theorem chaves_node (k : Int) (ti au : List Char) (d : Int) (l r : Livro) :
    chaves (Livro.node k ti au d l r) = chaves l ++ k :: chaves r := by
  simp [chaves]

@[simp]
theorem isBST_nil : isBST Livro.nil = true := rfl

theorem isBST_node {k : Int} {ti au : List Char} {d : Int} {l r : Livro} :
    isBST (Livro.node k ti au d l r) = true ↔
      (∀ x ∈ chaves l, x < k) ∧ (∀ x ∈ chaves r, k < x) ∧
        isBST l = true ∧ isBST r = true := by
  simp [isBST, List.all_eq_true, and_assoc]

theorem listar_eq_nil_iff {t : Livro} : listarLivrosRecursivo t = [] ↔ t = .nil := by
  cases t <;> simp

theorem contar_eq_length (t : Livro) :
    contarLivros t = (listarLivrosRecursivo t).length := by
  induction t with
  | nil => rfl
  | node k ti au d l r ihl ihr => simp [contarLivros, ihl, ihr]; omega

theorem sorted_chaves {t : Livro} (h : isBST t = true) :
    (chaves t).Pairwise (· < ·) := by
  induction t with
  | nil => simp
  | node k ti au d l r ihl ihr =>
    rcases isBST_node.mp h with ⟨hl, hr, bl, br⟩
    simp only [chaves_node]
    refine List.pairwise_append.mpr ⟨ihl bl, List.pairwise_cons.mpr ⟨hr, ihr br⟩, ?_⟩
    intro x hx y hy
    rcases List.mem_cons.mp hy with rfl | hy
    · exact hl x hx
    · exact lt_trans (hl x hx) (hr y hy)

/-! ### Lemmas about search -/

theorem buscar_id {t : Livro} {i : Int} {r : Registro}
    (h : buscarLivroRecursivo t i = some r) : r.id = i := by
  induction t with
  | nil => simp [buscarLivroRecursivo] at h
  | node k ti au d l rr ihl ihr =>
    by_cases hk : k = i
    · simp [buscarLivroRecursivo, hk] at h
      rw [← h]
    · by_cases hik : i < k
      · exact ihl (by simpa [buscarLivroRecursivo, hk, hik] using h)
      · exact ihr (by simpa [buscarLivroRecursivo, hk, hik] using h)

theorem buscar_mem {t : Livro} {i : Int} {r : Registro}
    (h : buscarLivroRecursivo t i = some r) : r ∈ listarLivrosRecursivo t := by
  induction t with
  | nil => simp [buscarLivroRecursivo] at h
  | node k ti au d l rr ihl ihr =>
    by_cases hk : k = i
    · subst hk
      simp [buscarLivroRecursivo] at h
      simp [← h]
    · by_cases hik : i < k
      · simp [buscarLivroRecursivo, hk, hik] at h
        simp [ihl h]
      · simp [buscarLivroRecursivo, hk, hik] at h
        simp [ihr h]

theorem buscar_some_mem_chaves {t : Livro} {i : Int} {r : Registro}
    (h : buscarLivroRecursivo t i = some r) : i ∈ chaves t := by
  have hm := buscar_mem h
  have := buscar_id h
  subst this
  exact List.mem_map_of_mem Registro.id hm

theorem mem_chaves_buscar_isSome {t : Livro} {i : Int}
    (hb : isBST t = true) (h : i ∈ chaves t) :
    (buscarLivroRecursivo t i).isSome = true := by
  induction t with
  | nil => simp at h
  | node k ti au d l r ihl ihr =>
    rcases isBST_node.mp hb with ⟨hl, hr, bl, br⟩
    by_cases hk : k = i
    · simp [buscarLivroRecursivo, hk]
    · simp only [chaves_node, List.mem_append, List.mem_cons] at h
      rcases h with h | h | h
      · have hik : i < k := hl i h
        simpa [buscarLivroRecursivo, hk, hik] using ihl bl h
      · exact absurd h.symm hk
      · have hik : k < i := hr i h
        simpa [buscarLivroRecursivo, hk, hik, not_lt_of_lt hik] using ihr br h

theorem buscar_none_iff {t : Livro} {i : Int} (hb : isBST t = true) :
    buscarLivroRecursivo t i = none ↔ i ∉ chaves t := by
  constructor
  · intro h hmem
    have := mem_chaves_buscar_isSome hb hmem
    rw [h] at this
    simp at this
  · intro h
    cases hs : buscarLivroRecursivo t i with
    | none => rfl
    | some r => exact absurd (buscar_some_mem_chaves hs) h

/-! ### Lemmas about insertion -/

theorem mem_chaves_inserir {t : Livro} {i x : Int} {ti au : List Char}
    (h : x ∈ chaves (inserirLivroRecursivo t i ti au)) :
    x = i ∨ x ∈ chaves t := by
  induction t with
  | nil => simp [inserirLivroRecursivo, criarLivro, chaves, listarLivrosRecursivo] at h; simp [h]
  | node k tti aau d l r ihl ihr =>
    by_cases hik : i < k
    · simp only [inserirLivroRecursivo, if_pos hik, chaves_node] at h
      simp only [List.mem_append, List.mem_cons] at h
      rcases h with h | h
      · rcases ihl h with h | h
        · exact Or.inl h
        · exact Or.inr (by simp [h])
      · exact Or.inr (by simp [h])
    · by_cases hki : k < i
      · simp only [inserirLivroRecursivo, if_neg hik, if_pos hki, chaves_node] at h
        simp only [List.mem_append, List.mem_cons] at h
        rcases h with h | h
        · exact Or.inr (by simp [h])
        · rcases h with h | h
          · exact Or.inr (by simp [h])
          · rcases ihr h with h | h
            · exact Or.inl h
            · exact Or.inr (by simp [h])
      · simp only [inserirLivroRecursivo, if_neg hik, if_neg hki] at h
        exact Or.inr (by simpa using h)

theorem isBST_inserir {t : Livro} (i : Int) (ti au : List Char)
    (hb : isBST t = true) : isBST (inserirLivroRecursivo t i ti au) = true := by
  induction t with
  | nil => simp [inserirLivroRecursivo, criarLivro, isBST]
  | node k tti aau d l r ihl ihr =>
    rcases isBST_node.mp hb with ⟨hl, hr, bl, br⟩
    by_cases hik : i < k
    · simp only [inserirLivroRecursivo, if_pos hik]
      refine isBST_node.mpr ⟨?_, hr, ihl bl, br⟩
      intro x hx
      rcases mem_chaves_inserir hx with rfl | hx
      · exact hik
      · exact hl x hx
    · by_cases hki : k < i
      · simp only [inserirLivroRecursivo, if_neg hik, if_pos hki]
        refine isBST_node.mpr ⟨hl, ?_, bl, ihr br⟩
        intro x hx
        rcases mem_chaves_inserir hx with rfl | hx
        · exact hki
        · exact hr x hx
      · simpa only [inserirLivroRecursivo, if_neg hik, if_neg hki] using hb

theorem buscar_inserir_self {t : Livro} {i : Int} (ti au : List Char)
    (h : buscarLivroRecursivo t i = none) :
    buscarLivroRecursivo (inserirLivroRecursivo t i ti au) i =
      some ⟨i, ti, au, 1⟩ := by
  induction t with
  | nil => simp [inserirLivroRecursivo, criarLivro, buscarLivroRecursivo]
  | node k tti aau d l r ihl ihr =>
    by_cases hk : k = i
    · simp [buscarLivroRecursivo, hk] at h
    · by_cases hik : i < k
      · simp only [buscarLivroRecursivo, if_neg hk, if_pos hik] at h
        simpa [inserirLivroRecursivo, hik, buscarLivroRecursivo, hk] using ihl h
      · have hki : k < i := by
          rcases lt_trichotomy i k with hc | hc | hc
          · exact absurd hc hik
          · exact absurd hc.symm hk
          · exact hc
        simp only [buscarLivroRecursivo, if_neg hk, if_neg hik] at h
        simpa [inserirLivroRecursivo, hik, not_lt_of_lt hki, hki,
          buscarLivroRecursivo, hk] using ihr h

theorem buscar_inserir_other {t : Livro} {i j : Int} (ti au : List Char)
    (h : j ≠ i) :
    buscarLivroRecursivo (inserirLivroRecursivo t i ti au) j =
      buscarLivroRecursivo t j := by
  induction t with
  | nil => simp [inserirLivroRecursivo, criarLivro, buscarLivroRecursivo, Ne.symm h, h]
  | node k tti aau d l r ihl ihr =>
    by_cases hik : i < k
    · simp only [inserirLivroRecursivo, if_pos hik]
      by_cases hk : k = j
      · simp [buscarLivroRecursivo, hk]
      · by_cases hjk : j < k
        · simp [buscarLivroRecursivo, hk, hjk, ihl]
        · simp [buscarLivroRecursivo, hk, hjk]
    · by_cases hki : k < i
      · simp only [inserirLivroRecursivo, if_neg hik, if_pos hki]
        by_cases hk : k = j
        · simp [buscarLivroRecursivo, hk]
        · by_cases hjk : j < k
          · simp [buscarLivroRecursivo, hk, hjk]
          · simp [buscarLivroRecursivo, hk, hjk, ihr]
      · simp only [inserirLivroRecursivo, if_neg hik, if_neg hki]

theorem inserir_encontrado {t : Livro} {i : Int} {r : Registro}
    (ti au : List Char) (h : buscarLivroRecursivo t i = some r) :
    inserirLivroRecursivo t i ti au = t := by
  induction t with
  | nil => simp [buscarLivroRecursivo] at h
  | node k tti aau d l rr ihl ihr =>
    by_cases hk : k = i
    · subst hk
      simp [inserirLivroRecursivo]
    · by_cases hik : i < k
      · simp only [buscarLivroRecursivo, if_neg hk, if_pos hik] at h
        simp [inserirLivroRecursivo, hik, ihl h]
      · simp only [buscarLivroRecursivo, if_neg hk, if_neg hik] at h
        have hki : k < i := by
          rcases lt_trichotomy i k with hc | hc | hc
          · exact absurd hc hik
          · exact absurd hc.symm hk
          · exact hc
        simp [inserirLivroRecursivo, hik, hki, ihr h]

theorem buscar_inserir_isSome (t : Livro) (i : Int) (ti au : List Char) :
    (buscarLivroRecursivo (inserirLivroRecursivo t i ti au) i).isSome = true := by
  induction t with
  | nil => simp [inserirLivroRecursivo, criarLivro, buscarLivroRecursivo]
  | node k tti aau d l r ihl ihr =>
    by_cases hk : k = i
    · subst hk
      simp [inserirLivroRecursivo, buscarLivroRecursivo]
    · by_cases hik : i < k
      · simpa [inserirLivroRecursivo, hik, buscarLivroRecursivo, hk] using ihl
      · have hki : k < i := by
          rcases lt_trichotomy i k with hc | hc | hc
          · exact absurd hc hik
          · exact absurd hc.symm hk
          · exact hc
        simpa [inserirLivroRecursivo, hik, hki, buscarLivroRecursivo, hk] using ihr

theorem listar_inserir_fresh {t : Livro} {i : Int} (ti au : List Char)
    (h : buscarLivroRecursivo t i = none) :
    listarLivrosRecursivo (inserirLivroRecursivo t i ti au) ~
      ⟨i, ti, au, 1⟩ :: listarLivrosRecursivo t := by
  induction t with
  | nil => simp [inserirLivroRecursivo, criarLivro]
  | node k tti aau d l r ihl ihr =>
    by_cases hk : k = i
    · simp [buscarLivroRecursivo, hk] at h
    · by_cases hik : i < k
      · simp only [buscarLivroRecursivo, if_neg hk, if_pos hik] at h
        simp only [inserirLivroRecursivo, if_pos hik, listar_node]
        calc listarLivrosRecursivo (inserirLivroRecursivo l i ti au) ++
              ⟨k, tti, aau, d⟩ :: listarLivrosRecursivo r
            ~ (⟨i, ti, au, 1⟩ :: listarLivrosRecursivo l) ++
              ⟨k, tti, aau, d⟩ :: listarLivrosRecursivo r :=
              (ihl h).append_right _
          _ = ⟨i, ti, au, 1⟩ :: (listarLivrosRecursivo l ++
              ⟨k, tti, aau, d⟩ :: listarLivrosRecursivo r) := by simp
      · have hki : k < i := by
          rcases lt_trichotomy i k with hc | hc | hc
          · exact absurd hc hik
          · exact absurd hc.symm hk
          · exact hc
        simp only [buscarLivroRecursivo, if_neg hk, if_neg hik] at h
        simp only [inserirLivroRecursivo, if_neg hik, if_pos hki, listar_node]
        refine List.Perm.trans
          (List.Perm.append_left _ (List.Perm.cons _ (ihr h))) ?_
        have h1 : listarLivrosRecursivo l ++ ⟨k, tti, aau, d⟩ ::
              ⟨i, ti, au, 1⟩ :: listarLivrosRecursivo r =
            (listarLivrosRecursivo l ++ [⟨k, tti, aau, d⟩]) ++
              ⟨i, ti, au, 1⟩ :: listarLivrosRecursivo r := by simp
        rw [h1]
        refine List.Perm.trans List.perm_middle ?_
        simp only [List.append_assoc, List.singleton_append]
        exact List.Perm.refl _

/-! ### Lemmas about the availability write-through -/

theorem chaves_setDisponivel (t : Livro) (i d : Int) :
    chaves (setDisponivel t i d) = chaves t := by
  induction t with
  | nil => rfl
  | node k ti au dv l r ihl ihr =>
    by_cases hk : k = i
    · simp [setDisponivel, hk]
    · by_cases hik : i < k
      · simp [setDisponivel, hk, hik, ihl]
      · simp [setDisponivel, hk, hik, ihr]

theorem isBST_setDisponivel (t : Livro) (i d : Int) :
    isBST (setDisponivel t i d) = isBST t := by
  induction t with
  | nil => rfl
  | node k ti au dv l r ihl ihr =>
    by_cases hk : k = i
    · simp [setDisponivel, hk, isBST]
    · by_cases hik : i < k
      · simp [setDisponivel, hk, hik, isBST, chaves_setDisponivel, ihl]
      · simp [setDisponivel, hk, hik, isBST, chaves_setDisponivel, ihr]

theorem buscar_setDisponivel_self {t : Livro} {i : Int} {r : Registro}
    (d : Int) (h : buscarLivroRecursivo t i = some r) :
    buscarLivroRecursivo (setDisponivel t i d) i =
      some ⟨r.id, r.titulo, r.autor, d⟩ := by
  induction t with
  | nil => simp [buscarLivroRecursivo] at h
  | node k ti au dv l rr ihl ihr =>
    by_cases hk : k = i
    · simp [buscarLivroRecursivo, hk] at h
      simp [setDisponivel, hk, buscarLivroRecursivo, ← h]
    · by_cases hik : i < k
      · simp only [buscarLivroRecursivo, if_neg hk, if_pos hik] at h
        simpa [setDisponivel, hk, hik, buscarLivroRecursivo] using ihl h
      · simp only [buscarLivroRecursivo, if_neg hk, if_neg hik] at h
        simpa [setDisponivel, hk, hik, buscarLivroRecursivo] using ihr h

theorem buscar_setDisponivel_other {t : Livro} {i j : Int} (d : Int)
    (h : j ≠ i) :
    buscarLivroRecursivo (setDisponivel t i d) j = buscarLivroRecursivo t j := by
  induction t with
  | nil => simp [setDisponivel]
  | node k ti au dv l r ihl ihr =>
    by_cases hk : k = i
    · have hkj : ¬ k = j := fun hc => h (hc ▸ hk)
      simp only [setDisponivel, if_pos hk, buscarLivroRecursivo, if_neg hkj]
    · by_cases hik : i < k
      · simp only [setDisponivel, if_neg hk, if_pos hik, buscarLivroRecursivo]
        by_cases hkj : k = j
        · simp [hkj]
        · by_cases hjk : j < k
          · simp [hkj, hjk, ihl]
          · simp [hkj, hjk]
      · simp only [setDisponivel, if_neg hk, if_neg hik, buscarLivroRecursivo]
        by_cases hkj : k = j
        · simp [hkj]
        · by_cases hjk : j < k
          · simp [hkj, hjk]
          · simp [hkj, hjk, ihr]

theorem map_id_of_ne {i : Int} (d : Int) (xs : List Registro)
    (h : ∀ x ∈ xs, x.id ≠ i) :
    xs.map (fun x => if x.id = i then ⟨x.id, x.titulo, x.autor, d⟩ else x) = xs := by
  induction xs with
  | nil => rfl
  | cons a l ih =>
    have ha : ¬ a.id = i := h a (by simp)
    simp only [List.map_cons, if_neg ha]
    rw [ih fun x hx => h x (List.mem_cons_of_mem a hx)]

theorem listar_setDisponivel {t : Livro} (i d : Int) (hb : isBST t = true) :
    listarLivrosRecursivo (setDisponivel t i d) =
      (listarLivrosRecursivo t).map
        (fun x => if x.id = i then ⟨x.id, x.titulo, x.autor, d⟩ else x) := by
  induction t with
  | nil => rfl
  | node k ti au dv l r ihl ihr =>
    rcases isBST_node.mp hb with ⟨hl, hr, bl, br⟩
    have hmem : ∀ x ∈ listarLivrosRecursivo l, x.id ∈ chaves l := by
      intro x hx; exact List.mem_map_of_mem Registro.id hx
    have hmem' : ∀ x ∈ listarLivrosRecursivo r, x.id ∈ chaves r := by
      intro x hx; exact List.mem_map_of_mem Registro.id hx
    by_cases hk : k = i
    · subst hk
      have h1 : ∀ x ∈ listarLivrosRecursivo l, x.id ≠ k := by
        intro x hx; exact ne_of_lt (hl _ (hmem x hx))
      have h2 : ∀ x ∈ listarLivrosRecursivo r, x.id ≠ k := by
        intro x hx; exact ne_of_gt (hr _ (hmem' x hx))
      simp [setDisponivel, List.map_append, map_id_of_ne d _ h1, map_id_of_ne d _ h2]
    · by_cases hik : i < k
      · have h2 : ∀ x ∈ listarLivrosRecursivo r, x.id ≠ i := by
          intro x hx; exact ne_of_gt (lt_trans hik (hr _ (hmem' x hx)))
        have hkne : ¬ (k = i) := hk
        simp [setDisponivel, hk, hik, List.map_append, ihl bl,
          map_id_of_ne d _ h2, hkne]
      · have hki : k < i := by
          rcases lt_trichotomy i k with hc | hc | hc
          · exact absurd hc hik
          · exact absurd hc.symm hk
          · exact hc
        have h1 : ∀ x ∈ listarLivrosRecursivo l, x.id ≠ i := by
          intro x hx; exact ne_of_lt (lt_trans (hl _ (hmem x hx)) hki)
        simp [setDisponivel, hk, hik, List.map_append, ihr br,
          map_id_of_ne d _ h1, hk]

/-! ### Lemmas about removal -/

theorem filter_ne_cons_drop (i : Int) (a : Registro) (l : List Registro)
    (ha : a.id = i) :
    (a :: l).filter (fun x => decide (x.id ≠ i)) =
      l.filter (fun x => decide (x.id ≠ i)) := by
  simp [List.filter_cons, ha]

theorem filter_ne_cons_keep (i : Int) (a : Registro) (l : List Registro)
    (ha : a.id ≠ i) :
    (a :: l).filter (fun x => decide (x.id ≠ i)) =
      a :: l.filter (fun x => decide (x.id ≠ i)) := by
  simp [List.filter_cons, ha]

theorem encontrarMenor_eq_head (t : Livro) :
    encontrarMenor t = (listarLivrosRecursivo t).head? := by
  induction t with
  | nil => rfl
  | node k ti au d l r ihl ihr =>
    cases hl : encontrarMenor l with
    | some m =>
      rw [ihl] at hl
      simp [encontrarMenor, ihl, List.head?_append, hl]
    | none =>
      rw [ihl] at hl
      have : listarLivrosRecursivo l = [] := by
        cases hx : listarLivrosRecursivo l with
        | nil => rfl
        | cons a as => rw [hx] at hl; simp at hl
      simp [encontrarMenor, ihl, this, hl]

theorem listar_remover {t : Livro} (i : Int) (hb : isBST t = true) :
    listarLivrosRecursivo (removerLivroRecursivo t i) =
      (listarLivrosRecursivo t).filter (fun r => decide (r.id ≠ i)) := by
  revert hb
  induction t generalizing i with
  | nil => intro hb; rfl
  | node k ti au d l r ihl ihr =>
    intro hb
    rcases isBST_node.mp hb with ⟨hl, hr, bl, br⟩
    have hmem : ∀ x ∈ listarLivrosRecursivo l, x.id ∈ chaves l := by
      intro x hx; exact List.mem_map_of_mem Registro.id hx
    have hmem' : ∀ x ∈ listarLivrosRecursivo r, x.id ∈ chaves r := by
      intro x hx; exact List.mem_map_of_mem Registro.id hx
    by_cases hik : i < k
    · have h2 : (⟨k, ti, au, d⟩ :: listarLivrosRecursivo r).filter
          (fun x => decide (x.id ≠ i)) = ⟨k, ti, au, d⟩ :: listarLivrosRecursivo r := by
        refine List.filter_eq_self.mpr ?_
        intro a ha
        rcases List.mem_cons.mp ha with rfl | ha
        · simp; omega
        · simp
          exact ne_of_gt (lt_trans hik (hr _ (hmem' a ha)))
      simp only [removerLivroRecursivo, if_pos hik, listar_node,
        List.filter_append, ihl i bl, h2]
    · by_cases hki : k < i
      · have h1 : (listarLivrosRecursivo l).filter (fun x => decide (x.id ≠ i)) =
            listarLivrosRecursivo l := by
          refine List.filter_eq_self.mpr ?_
          intro a ha
          simp
          exact ne_of_lt (lt_trans (hl _ (hmem a ha)) hki)
        have hkne : (decide ((⟨k, ti, au, d⟩ : Registro).id ≠ i)) = true := by
          simp
          omega
        simp only [removerLivroRecursivo, if_neg hik, if_pos hki, listar_node,
          List.filter_append, List.filter_cons, hkne, if_true, ihr i br, h1]
      · have hk : i = k := by omega
        subst hk
        have h1 : (listarLivrosRecursivo l).filter (fun x => decide (x.id ≠ i)) =
            listarLivrosRecursivo l := by
          refine List.filter_eq_self.mpr ?_
          intro a ha
          simp
          exact ne_of_lt (hl _ (hmem a ha))
        have h2 : (listarLivrosRecursivo r).filter (fun x => decide (x.id ≠ i)) =
            listarLivrosRecursivo r := by
          refine List.filter_eq_self.mpr ?_
          intro a ha
          simp
          exact ne_of_gt (hr _ (hmem' a ha))
        cases l with
        | nil =>
          have hstep : removerLivroRecursivo (Livro.node i ti au d Livro.nil r) i = r := by
            simp [removerLivroRecursivo]
          rw [hstep, listar_node, listar_nil, List.nil_append,
            filter_ne_cons_drop i _ _ rfl, h2]
        | node kl til aul dl ll rl =>
          cases r with
          | nil =>
            have hstep : removerLivroRecursivo
                (Livro.node i ti au d (Livro.node kl til aul dl ll rl) Livro.nil) i =
                Livro.node kl til aul dl ll rl := by
              simp [removerLivroRecursivo]
            rw [hstep]
            conv_rhs => rw [listar_node, listar_nil]
            rw [List.filter_append, filter_ne_cons_drop i _ _ rfl,
              List.filter_nil, List.append_nil, h1]
          | node kr tir aur dr lr rr =>
            have hrne : listarLivrosRecursivo (Livro.node kr tir aur dr lr rr) ≠ [] := by
              simp [listar_eq_nil_iff]
            obtain ⟨m, tail, hmr⟩ : ∃ m tail,
                listarLivrosRecursivo (Livro.node kr tir aur dr lr rr) = m :: tail := by
              cases hx : listarLivrosRecursivo (Livro.node kr tir aur dr lr rr) with
              | nil => exact absurd hx hrne
              | cons a as => exact ⟨a, as, rfl⟩
            have hmin : encontrarMenor (Livro.node kr tir aur dr lr rr) = some m := by
              rw [encontrarMenor_eq_head, hmr]
              rfl
            have htail : ∀ x ∈ tail, m.id < x.id := by
              have hs := sorted_chaves br
              rw [chaves, hmr] at hs
              simp only [List.map_cons, List.pairwise_cons] at hs
              intro x hx
              exact hs.1 x.id (List.mem_map_of_mem Registro.id hx)
            have htail' : tail.filter (fun x => decide (x.id ≠ m.id)) = tail := by
              refine List.filter_eq_self.mpr ?_
              intro a ha
              simp
              exact ne_of_gt (htail a ha)
            have hrec : listarLivrosRecursivo
                (removerLivroRecursivo (Livro.node kr tir aur dr lr rr) m.id) = tail := by
              rw [ihr m.id br, hmr, filter_ne_cons_drop m.id _ _ rfl, htail']
            have hstep : removerLivroRecursivo
                (Livro.node i ti au d (Livro.node kl til aul dl ll rl)
                  (Livro.node kr tir aur dr lr rr)) i =
                Livro.node m.id m.titulo m.autor m.disponivel
                  (Livro.node kl til aul dl ll rl)
                  (removerLivroRecursivo (Livro.node kr tir aur dr lr rr) m.id) := by
              simp [removerLivroRecursivo, hmin]
            rw [hstep]
            conv_rhs => rw [listar_node]
            rw [List.filter_append, filter_ne_cons_drop i _ _ rfl, h1, h2, hmr]
            conv_lhs => rw [listar_node]
            rw [hrec]

theorem mem_chaves_remover {t : Livro} {i x : Int} (hb : isBST t = true) :
    x ∈ chaves (removerLivroRecursivo t i) ↔ x ∈ chaves t ∧ x ≠ i := by
  simp only [chaves, listar_remover i hb, List.mem_map, List.mem_filter,
    decide_eq_true_eq]
  constructor
  · rintro ⟨a, ⟨ha, hne⟩, rfl⟩
    exact ⟨⟨a, ha, rfl⟩, hne⟩
  · rintro ⟨⟨a, ha, rfl⟩, hne⟩
    exact ⟨a, ⟨ha, hne⟩, rfl⟩

theorem isBST_remover {t : Livro} (i : Int) (hb : isBST t = true) :
    isBST (removerLivroRecursivo t i) = true := by
  revert hb
  induction t generalizing i with
  | nil => intro hb; exact hb
  | node k ti au d l r ihl ihr =>
    intro hb
    rcases isBST_node.mp hb with ⟨hl, hr, bl, br⟩
    by_cases hik : i < k
    · simp only [removerLivroRecursivo, if_pos hik]
      refine isBST_node.mpr ⟨?_, hr, ihl i bl, br⟩
      intro x hx
      exact hl x ((mem_chaves_remover bl).mp hx).1
    · by_cases hki : k < i
      · simp only [removerLivroRecursivo, if_neg hik, if_pos hki]
        refine isBST_node.mpr ⟨hl, ?_, bl, ihr i br⟩
        intro x hx
        exact hr x ((mem_chaves_remover br).mp hx).1
      · have hk : i = k := by omega
        subst hk
        cases l with
        | nil =>
          have hstep : removerLivroRecursivo (Livro.node i ti au d Livro.nil r) i = r := by
            simp [removerLivroRecursivo]
          rw [hstep]
          exact br
        | node kl til aul dl ll rl =>
          cases r with
          | nil =>
            have hstep : removerLivroRecursivo
                (Livro.node i ti au d (Livro.node kl til aul dl ll rl) Livro.nil) i =
                Livro.node kl til aul dl ll rl := by
              simp [removerLivroRecursivo]
            rw [hstep]
            exact bl
          | node kr tir aur dr lr rr =>
            obtain ⟨m, tail, hmr⟩ : ∃ m tail,
                listarLivrosRecursivo (Livro.node kr tir aur dr lr rr) = m :: tail := by
              cases hx : listarLivrosRecursivo (Livro.node kr tir aur dr lr rr) with
              | nil => simp [listar_eq_nil_iff] at hx
              | cons a as => exact ⟨a, as, rfl⟩
            have hmin : encontrarMenor (Livro.node kr tir aur dr lr rr) = some m := by
              rw [encontrarMenor_eq_head, hmr]
              rfl
            have hmidmem : m.id ∈ chaves (Livro.node kr tir aur dr lr rr) := by
              rw [chaves, hmr]
              simp
            have hstep : removerLivroRecursivo
                (Livro.node i ti au d (Livro.node kl til aul dl ll rl)
                  (Livro.node kr tir aur dr lr rr)) i =
                Livro.node m.id m.titulo m.autor m.disponivel
                  (Livro.node kl til aul dl ll rl)
                  (removerLivroRecursivo (Livro.node kr tir aur dr lr rr) m.id) := by
              simp [removerLivroRecursivo, hmin]
            rw [hstep]
            refine isBST_node.mpr ⟨?_, ?_, bl, ihr m.id br⟩
            · intro x hx
              have hxk : x < i := hl x hx
              have hkm : i < m.id := hr _ hmidmem
              omega
            · intro x hx
              rcases (mem_chaves_remover br).mp hx with ⟨hxmem, hxne⟩
              have hs := sorted_chaves br
              rw [chaves, hmr] at hs hxmem
              simp only [List.map_cons, List.pairwise_cons] at hs
              simp only [List.map_cons, List.mem_cons] at hxmem
              rcases hxmem with rfl | hxmem
              · exact absurd rfl hxne
              · exact hs.1 x hxmem

theorem remover_ausente {t : Livro} {i : Int} (h : i ∉ chaves t) :
    removerLivroRecursivo t i = t := by
  induction t with
  | nil => rfl
  | node k ti au d l r ihl ihr =>
    simp only [chaves_node, List.mem_append, List.mem_cons, not_or] at h
    obtain ⟨hnl, hnk, hnr⟩ := h
    by_cases hik : i < k
    · simp [removerLivroRecursivo, hik, ihl hnl]
    · by_cases hki : k < i
      · simp [removerLivroRecursivo, hik, hki, ihr hnr]
      · exact absurd (by omega : i = k) hnk

theorem length_filter_ne_of_mem {l : List Registro} {i : Int}
    (hp : (l.map Registro.id).Pairwise (· ≠ ·)) (hm : i ∈ l.map Registro.id) :
    (l.filter (fun r => decide (r.id ≠ i))).length + 1 = l.length := by
  induction l with
  | nil => simp at hm
  | cons a l ih =>
    simp only [List.map_cons, List.pairwise_cons] at hp
    obtain ⟨ha, hp'⟩ := hp
    simp only [List.map_cons, List.mem_cons] at hm
    rcases hm with rfl | hm
    · rw [filter_ne_cons_drop _ _ _ rfl]
      have hkeep : l.filter (fun r => decide (r.id ≠ a.id)) = l := by
        refine List.filter_eq_self.mpr ?_
        intro x hx
        simp only [decide_eq_true_eq]
        exact Ne.symm (ha x.id (List.mem_map_of_mem Registro.id hx))
      rw [hkeep]
      simp
    · have hai : a.id ≠ i := ha i hm
      rw [filter_ne_cons_keep _ _ _ hai]
      have := ih hp' hm
      simp only [List.length_cons]
      omega

/-! ### Folding a sequence of insertions -/

theorem buscar_foldl_inserir_untouched
    {l : List (Int × List Char × List Char)} {j : Int}
    (h : ∀ e ∈ l, e.1 ≠ j) :
    ∀ t : Livro,
      buscarLivroRecursivo
        (l.foldl (fun bib e => inserirLivro bib e.1 e.2.1 e.2.2) t) j =
      buscarLivroRecursivo t j := by
  induction l with
  | nil => intro t; rfl
  | cons a l ih =>
    intro t
    simp only [List.foldl_cons]
    rw [ih (fun e he => h e (List.mem_cons_of_mem a he))]
    exact buscar_inserir_other _ _ (Ne.symm (h a (by simp)))

theorem foldl_inserir_props
    {l : List (Int × List Char × List Char)} :
    ∀ t : Livro, isBST t = true → (∀ e ∈ l, e.1 ∉ chaves t) →
      (l.map Prod.fst).Pairwise (· ≠ ·) →
      isBST (l.foldl (fun bib e => inserirLivro bib e.1 e.2.1 e.2.2) t) = true ∧
      listarLivrosRecursivo
          (l.foldl (fun bib e => inserirLivro bib e.1 e.2.1 e.2.2) t) ~
        l.map (fun e => ⟨e.1, e.2.1, e.2.2, 1⟩) ++ listarLivrosRecursivo t ∧
      ∀ e ∈ l,
        buscarLivroRecursivo
            (l.foldl (fun bib e => inserirLivro bib e.1 e.2.1 e.2.2) t) e.1 =
          some ⟨e.1, e.2.1, e.2.2, 1⟩ := by
  induction l with
  | nil =>
    intro t ht _ _
    exact ⟨ht, by simp, by simp⟩
  | cons a l ih =>
    intro t ht hfresh hpair
    simp only [List.map_cons, List.pairwise_cons] at hpair
    obtain ⟨hahead, hpair'⟩ := hpair
    have hfa : buscarLivroRecursivo t a.1 = none :=
      (buscar_none_iff ht).mpr (hfresh a (by simp))
    have ht1 : isBST (inserirLivro t a.1 a.2.1 a.2.2) = true :=
      isBST_inserir _ _ _ ht
    have hperm1 : listarLivrosRecursivo (inserirLivro t a.1 a.2.1 a.2.2) ~
        ⟨a.1, a.2.1, a.2.2, 1⟩ :: listarLivrosRecursivo t :=
      listar_inserir_fresh _ _ hfa
    have hkeys1 : ∀ e ∈ l, e.1 ∉ chaves (inserirLivro t a.1 a.2.1 a.2.2) := by
      intro e he hc
      rcases mem_chaves_inserir hc with hc | hc
      · exact hahead e.1 (List.mem_map_of_mem Prod.fst he) hc.symm
      · exact hfresh e (List.mem_cons_of_mem a he) hc
    obtain ⟨hbst, hperm, hbusca⟩ := ih (inserirLivro t a.1 a.2.1 a.2.2) ht1 hkeys1 hpair'
    refine ⟨by simpa using hbst, ?_, ?_⟩
    · simp only [List.foldl_cons, List.map_cons]
      refine hperm.trans ?_
      refine (List.Perm.append_left _ hperm1).trans ?_
      exact List.perm_middle
    · intro e he
      rcases List.mem_cons.mp he with rfl | he
      · simp only [List.foldl_cons]
        rw [buscar_foldl_inserir_untouched
          (fun x hx => Ne.symm (hahead x.1 (List.mem_map_of_mem Prod.fst hx)))]
        exact buscar_inserir_self _ _ hfa
      · simpa using hbusca e he

/-! ### The `%d` rendering and its inversion by the scanner -/

theorem digitChar_isDigit {d : Nat} (h : d < 10) :
    (digitChar d).isDigit = true := by
  interval_cases d <;> decide

theorem digitVal_digitChar {d : Nat} (h : d < 10) :
    digitVal (digitChar d) = d := by
  interval_cases d <;> decide

theorem isDigit_not_space {c : Char} (h : c.isDigit = true) :
    isSpaceChar c = false := by
  cases hc : isSpaceChar c with
  | false => rfl
  | true =>
    exfalso
    simp only [isSpaceChar, Bool.or_eq_true, decide_eq_true_eq] at hc
    rcases hc with ((((rfl | rfl) | rfl) | rfl) | rfl) | rfl <;>
      exact absurd h (by decide)

theorem isDigit_ne_minus {c : Char} (h : c.isDigit = true) : ¬ (c = '-') := by
  intro hc
  subst hc
  exact absurd h (by decide)

theorem isDigit_ne_plus {c : Char} (h : c.isDigit = true) : ¬ (c = '+') := by
  intro hc
  subst hc
  exact absurd h (by decide)

theorem natChars_ne_nil (n : Nat) : natChars n ≠ [] := by
  rw [natChars]
  split <;> simp

theorem natChars_all_digits (n : Nat) :
    ∀ c ∈ natChars n, c.isDigit = true := by
  induction n using natChars.induct with
  | case1 n h =>
    rw [natChars, if_pos h]
    intro c hc
    simp only [List.mem_singleton] at hc
    subst hc
    exact digitChar_isDigit h
  | case2 n h ih =>
    rw [natChars, if_neg h]
    intro c hc
    rcases List.mem_append.mp hc with hc | hc
    · exact ih c hc
    · simp only [List.mem_singleton] at hc
      subst hc
      exact digitChar_isDigit (Nat.mod_lt _ (by omega))

theorem takeWhile_append_all {p : Char → Bool} (xs ys : List Char)
    (h : ∀ c ∈ xs, p c = true) :
    (xs ++ ys).takeWhile p = xs ++ ys.takeWhile p := by
  induction xs with
  | nil => simp
  | cons a l ih =>
    have ha : p a = true := h a (by simp)
    simp only [List.cons_append, List.takeWhile_cons, ha, if_true]
    rw [ih fun c hc => h c (List.mem_cons_of_mem a hc)]

theorem dropWhile_append_all {p : Char → Bool} (xs ys : List Char)
    (h : ∀ c ∈ xs, p c = true) :
    (xs ++ ys).dropWhile p = ys.dropWhile p := by
  induction xs with
  | nil => simp
  | cons a l ih =>
    have ha : p a = true := h a (by simp)
    simp only [List.cons_append, List.dropWhile_cons, ha, if_true]
    exact ih fun c hc => h c (List.mem_cons_of_mem a hc)

theorem digitsVal_natChars (n : Nat) : digitsVal (natChars n) = n := by
  induction n using natChars.induct with
  | case1 n h =>
    rw [natChars, if_pos h]
    simp [digitsVal, digitVal_digitChar h]
  | case2 n h ih =>
    rw [natChars, if_neg h]
    simp only [digitsVal, List.foldl_append, List.foldl_cons, List.foldl_nil]
    have hd : digitVal (digitChar (n % 10)) = n % 10 :=
      digitVal_digitChar (Nat.mod_lt _ (by omega))
    simp only [digitsVal] at ih
    rw [ih, hd]
    omega

theorem readNat_natChars {n : Nat} {c : Char} {rest : List Char}
    (hc : c.isDigit = false) :
    readNat (natChars n ++ c :: rest) = some (n, c :: rest) := by
  have htake : (natChars n ++ c :: rest).takeWhile Char.isDigit = natChars n := by
    rw [takeWhile_append_all _ _ (natChars_all_digits n)]
    simp [List.takeWhile_cons, hc]
  have hdrop : (natChars n ++ c :: rest).dropWhile Char.isDigit = c :: rest := by
    rw [dropWhile_append_all _ _ (natChars_all_digits n)]
    simp [List.dropWhile_cons, hc]
  rw [readNat]
  simp only [htake, hdrop, digitsVal_natChars]
  rw [if_neg (natChars_ne_nil n)]

theorem readSign_digit {c : Char} {cs : List Char} (h : c.isDigit = true) :
    readSign (c :: cs) = (false, c :: cs) := by
  rw [readSign]
  rw [if_neg (isDigit_ne_minus h), if_neg (isDigit_ne_plus h)]

theorem dropWhile_space_not_space {c : Char} {cs : List Char}
    (h : isSpaceChar c = false) :
    (c :: cs).dropWhile isSpaceChar = c :: cs := by
  simp [List.dropWhile_cons, h]

theorem readInt_intChars {i : Int} {c : Char} {rest : List Char}
    (hc : c.isDigit = false) :
    readInt (intChars i ++ c :: rest) = some (i, c :: rest) := by
  by_cases hi : i < 0
  · have hsign : readSign ('-' :: (natChars i.natAbs ++ c :: rest)) =
        (true, natChars i.natAbs ++ c :: rest) := by
      simp [readSign]
    rw [readInt, intChars, if_pos hi, List.cons_append,
      dropWhile_space_not_space (by decide), hsign]
    simp only []
    rw [readNat_natChars hc]
    have habs : ((i.natAbs : Nat) : Int) = -i := by omega
    simp [habs]
  · obtain ⟨c0, cs0, hnc⟩ : ∃ c0 cs0, natChars i.toNat = c0 :: cs0 := by
      cases hx : natChars i.toNat with
      | nil => exact absurd hx (natChars_ne_nil _)
      | cons a as => exact ⟨a, as, rfl⟩
    have hd0 : c0.isDigit = true := by
      refine natChars_all_digits i.toNat c0 ?_
      rw [hnc]
      simp
    rw [readInt, intChars, if_neg hi, hnc, List.cons_append,
      dropWhile_space_not_space (isDigit_not_space hd0),
      readSign_digit hd0, ← List.cons_append, ← hnc]
    simp only []
    rw [readNat_natChars hc]
    have htn : ((i.toNat : Nat) : Int) = i := by omega
    simp [htn]

theorem readSeg_good {s rest : List Char} (hne : s ≠ []) (hnp : '|' ∉ s) :
    readSeg (s ++ '|' :: rest) = some (s, '|' :: rest) := by
  have hall : ∀ c ∈ s, (!(decide (c = '|'))) = true := by
    intro c hcs
    simp only [Bool.not_eq_true']
    exact decide_eq_false fun hc => hnp (hc ▸ hcs)
  have htake : (s ++ '|' :: rest).takeWhile (fun c => !(c = '|')) = s := by
    rw [takeWhile_append_all _ _ hall]
    simp [List.takeWhile_cons]
  have hdrop : (s ++ '|' :: rest).dropWhile (fun c => !(c = '|')) = '|' :: rest := by
    rw [dropWhile_append_all _ _ hall]
    simp [List.dropWhile_cons]
  rw [readSeg]
  simp only [htake, hdrop]
  rw [if_neg hne]

theorem matchChar_self (c : Char) (rest : List Char) :
    matchChar c (c :: rest) = some rest := by
  simp [matchChar]

/-- A line produced by `fprintf("%d|%s|%s|%d\n", ...)` from a record whose
text fields fit the format is parsed back by `sscanf` into exactly that
record, whatever the previous values of the locals were. -/
theorem sscanf_formatLine (r : Registro) (st : ScanState) (h : GoodReg r) :
    sscanfLinha (formatLine r) st = ⟨r.id, r.titulo, r.autor, r.disponivel⟩ := by
  obtain ⟨⟨ht1, ht2, _⟩, ⟨ha1, ha2, _⟩⟩ := h
  rw [sscanfLinha, formatLine, readInt_intChars (by decide)]
  simp only []
  rw [matchChar_self]
  simp only []
  rw [readSeg_good ht1 ht2]
  simp only []
  rw [matchChar_self]
  simp only []
  rw [readSeg_good ha1 ha2]
  simp only []
  rw [matchChar_self]
  simp only []
  rw [readInt_intChars (by decide)]

/-- Loading a file whose lines are the formatted records equals the pure
fold `carregarRegistros` (each line parses fully, each id is found right
after it is inserted). -/
theorem carregar_formatLines {regs : List Registro} :
    ∀ (bib : Livro) (st : ScanState), (∀ x ∈ regs, GoodReg x) →
      carregarLivros bib (regs.map formatLine) st = carregarRegistros bib regs := by
  induction regs with
  | nil => intro bib st _; rfl
  | cons r rest ih =>
    intro bib st h
    rw [List.map_cons, carregarLivros, sscanf_formatLine r st (h r (by simp))]
    simp only []
    cases hs : buscarLivro (inserirLivro bib r.id r.titulo r.autor) r.id with
    | none =>
      exfalso
      have hsome := buscar_inserir_isSome bib r.id r.titulo r.autor
      rw [show buscarLivroRecursivo (inserirLivroRecursivo bib r.id r.titulo r.autor)
            r.id = buscarLivro (inserirLivro bib r.id r.titulo r.autor) r.id from rfl,
        hs] at hsome
      simp at hsome
    | some rec0 =>
      simp only []
      rw [ih _ _ (fun x hx => h x (List.mem_cons_of_mem r hx))]
      rfl

/-! ### The balanced save emits a permutation of the in-order vector -/

theorem armazenar_eq (t : Livro) :
    ∀ vetor, armazenarLivrosEmOrdem t vetor = vetor ++ listarLivrosRecursivo t := by
  induction t with
  | nil => intro vetor; simp [armazenarLivrosEmOrdem]
  | node k ti au d l r ihl ihr =>
    intro vetor
    simp [armazenarLivrosEmOrdem, ihl, ihr]

theorem seg_split {α : Type} (l : List α) (d : α) (a m f : Nat)
    (h1 : a ≤ m) (h2 : m ≤ f) (h3 : f < l.length) :
    (l.drop a).take (f + 1 - a) =
      (l.drop a).take (m - a) ++ l.getD m d :: (l.drop (m + 1)).take (f - m) := by
  have e1 : f + 1 - a = (m - a) + (f + 1 - m) := by omega
  rw [e1, List.take_add]
  congr 1
  rw [List.drop_drop]
  have e2 : a + (m - a) = m := by omega
  rw [e2]
  have hm : m < l.length := by omega
  have hd : l.drop m = l.getD m d :: l.drop (m + 1) := by
    rw [List.getD_eq_getElem _ _ hm]
    exact List.drop_eq_getElem_cons hm
  rw [hd]
  have e3 : f + 1 - m = (f - m) + 1 := by omega
  rw [e3, List.take_succ_cons]

theorem salvarRegs_perm (vetor : List Registro) (n : Nat) :
    ∀ (inicio fim : Int), (fim + 1 - inicio).toNat ≤ n → 0 ≤ inicio →
      fim < (vetor.length : Int) →
      salvarRegistrosRec vetor inicio fim ~
        (vetor.drop inicio.toNat).take (fim + 1 - inicio).toNat := by
  induction n with
  | zero =>
    intro inicio fim hle h0 hlen
    have hn : (fim + 1 - inicio).toNat = 0 := by omega
    rw [salvarRegistrosRec, if_neg (by omega), hn]
    simp
  | succ n ih =>
    intro inicio fim hle h0 hlen
    by_cases hif : inicio ≤ fim
    · rw [salvarRegistrosRec, if_pos hif]
      simp only []
      have hm1 : inicio ≤ (inicio + fim) / 2 := by omega
      have hm2 : (inicio + fim) / 2 ≤ fim := by omega
      have ihl := ih inicio ((inicio + fim) / 2 - 1) (by omega) h0 (by omega)
      have ihr := ih ((inicio + fim) / 2 + 1) fim (by omega) (by omega) hlen
      have el : ((inicio + fim) / 2 - 1 + 1 - inicio).toNat =
          ((inicio + fim) / 2).toNat - inicio.toNat := by omega
      have er1 : (((inicio + fim) / 2 + 1)).toNat = ((inicio + fim) / 2).toNat + 1 := by
        omega
      have er2 : (fim + 1 - ((inicio + fim) / 2 + 1)).toNat =
          fim.toNat - ((inicio + fim) / 2).toNat := by omega
      rw [el] at ihl
      rw [er1, er2] at ihr
      have hsplit := seg_split vetor ⟨0, [], [], 0⟩ inicio.toNat
        ((inicio + fim) / 2).toNat fim.toNat (by omega) (by omega) (by omega)
      have eouter : (fim + 1 - inicio).toNat = fim.toNat + 1 - inicio.toNat := by omega
      rw [eouter, hsplit]
      refine List.Perm.trans (List.Perm.cons _ (List.Perm.append ihl ihr)) ?_
      exact List.perm_middle.symm
    · rw [salvarRegistrosRec, if_neg hif]
      have hn : (fim + 1 - inicio).toNat = 0 := by omega
      rw [hn]
      simp

theorem salvarBalanceado_eq_map (vetor : List Registro) (n : Nat) :
    ∀ (inicio fim : Int), (fim + 1 - inicio).toNat ≤ n →
      salvarBalanceadoRecursivo vetor inicio fim =
        (salvarRegistrosRec vetor inicio fim).map formatLine := by
  induction n with
  | zero =>
    intro inicio fim hle
    rw [salvarBalanceadoRecursivo, if_neg (by omega),
      salvarRegistrosRec, if_neg (by omega)]
    rfl
  | succ n ih =>
    intro inicio fim hle
    by_cases hif : inicio ≤ fim
    · rw [salvarBalanceadoRecursivo, if_pos hif, salvarRegistrosRec, if_pos hif]
      simp only []
      rw [ih inicio ((inicio + fim) / 2 - 1) (by omega),
        ih ((inicio + fim) / 2 + 1) fim (by omega)]
      simp
    · rw [salvarBalanceadoRecursivo, if_neg hif, salvarRegistrosRec, if_neg hif]
      rfl

/-- The lines written by `salvarLivros` are the formatted records of some
permutation of the in-order traversal: no record is lost or duplicated. -/
theorem salvarLivros_eq_map_perm (t : Livro) :
    ∃ regs : List Registro,
      salvarLivros t = regs.map formatLine ∧ regs ~ listarLivrosRecursivo t := by
  refine ⟨salvarRegistrosRec (armazenarLivrosEmOrdem t []) 0
    ((contarLivros t : Int) - 1), ?_, ?_⟩
  · rw [salvarLivros, salvarLivrosBalanceado]
    exact salvarBalanceado_eq_map _ ((contarLivros t : Int) - 1 + 1 - 0).toNat _ _
      (le_refl _)
  · have harm : armazenarLivrosEmOrdem t [] = listarLivrosRecursivo t := by
      rw [armazenar_eq t []]
      simp
    have hlen : (listarLivrosRecursivo t).length = contarLivros t :=
      (contar_eq_length t).symm
    have hperm := salvarRegs_perm (armazenarLivrosEmOrdem t [])
      ((contarLivros t : Int) - 1 + 1 - 0).toNat 0 ((contarLivros t : Int) - 1)
      (le_refl _) (le_refl 0) (by rw [harm]; omega)
    rw [harm] at hperm ⊢
    refine hperm.trans ?_
    have e1 : ((contarLivros t : Int) - 1 + 1 - 0).toNat = contarLivros t := by omega
    rw [e1, Int.toNat_zero, List.drop_zero, ← hlen, List.take_length]

/-! ### Loading a list of fully parsed records -/

theorem carregarRegistro_fresh {t : Livro} {r : Registro}
    (hb : isBST t = true) (hfresh : r.id ∉ chaves t) :
    isBST (carregarRegistro t r) = true ∧
    listarLivrosRecursivo (carregarRegistro t r) ~ r :: listarLivrosRecursivo t ∧
    ∀ x, x ∈ chaves (carregarRegistro t r) → x = r.id ∨ x ∈ chaves t := by
  have hnone : buscarLivroRecursivo t r.id = none := (buscar_none_iff hb).mpr hfresh
  have hbst1 : isBST (inserirLivro t r.id r.titulo r.autor) = true :=
    isBST_inserir _ _ _ hb
  refine ⟨?_, ?_, ?_⟩
  · rw [carregarRegistro, isBST_setDisponivel]
    exact hbst1
  · rw [carregarRegistro, listar_setDisponivel _ _ hbst1]
    refine List.Perm.trans (List.Perm.map _ (listar_inserir_fresh _ _ hnone)) ?_
    rw [List.map_cons]
    have hids : ∀ x ∈ listarLivrosRecursivo t, x.id ≠ r.id := by
      intro x hx hc
      exact hfresh (hc ▸ List.mem_map_of_mem Registro.id hx)
    rw [map_id_of_ne _ _ hids]
    have hhead : (if (⟨r.id, r.titulo, r.autor, 1⟩ : Registro).id = r.id then
        (⟨(⟨r.id, r.titulo, r.autor, 1⟩ : Registro).id,
          (⟨r.id, r.titulo, r.autor, 1⟩ : Registro).titulo,
          (⟨r.id, r.titulo, r.autor, 1⟩ : Registro).autor,
          r.disponivel⟩ : Registro)
      else ⟨r.id, r.titulo, r.autor, 1⟩) = r := by simp
    rw [hhead]
  · intro x hx
    rw [carregarRegistro, chaves_setDisponivel] at hx
    exact mem_chaves_inserir hx

theorem carregarRegistros_fresh {regs : List Registro} :
    ∀ t : Livro, isBST t = true → (∀ x ∈ regs, x.id ∉ chaves t) →
      (regs.map Registro.id).Pairwise (· ≠ ·) →
      isBST (carregarRegistros t regs) = true ∧
      listarLivrosRecursivo (carregarRegistros t regs) ~
        regs ++ listarLivrosRecursivo t := by
  induction regs with
  | nil => intro t ht _ _; exact ⟨ht, by simp [carregarRegistros]⟩
  | cons r rest ih =>
    intro t ht hfresh hpair
    simp only [List.map_cons, List.pairwise_cons] at hpair
    obtain ⟨hrhead, hpair'⟩ := hpair
    obtain ⟨hbst1, hperm1, hkeys1⟩ :=
      carregarRegistro_fresh ht (hfresh r (by simp))
    have hfresh' : ∀ x ∈ rest, x.id ∉ chaves (carregarRegistro t r) := by
      intro x hx hc
      rcases hkeys1 x.id hc with hc | hc
      · exact hrhead x.id (List.mem_map_of_mem Registro.id hx) hc.symm
      · exact hfresh x (List.mem_cons_of_mem r hx) hc
    obtain ⟨hbst, hperm⟩ := ih (carregarRegistro t r) hbst1 hfresh' hpair'
    refine ⟨by simpa [carregarRegistros] using hbst, ?_⟩
    have hfold : carregarRegistros t (r :: rest) =
        carregarRegistros (carregarRegistro t r) rest := rfl
    rw [hfold]
    refine hperm.trans ?_
    refine (List.Perm.append_left _ hperm1).trans ?_
    exact List.perm_middle

theorem isBST_carregarLivros (linhas : List (List Char)) :
    ∀ (t : Livro) (st : ScanState), isBST t = true →
      isBST (carregarLivros t linhas st) = true := by
  induction linhas with
  | nil => intro t st h; exact h
  | cons linha resto ih =>
    intro t st h
    simp only [carregarLivros]
    cases hs : buscarLivro
        (inserirLivro t (sscanfLinha linha st).id (sscanfLinha linha st).titulo
          (sscanfLinha linha st).autor) (sscanfLinha linha st).id with
    | none => exact ih _ _ (isBST_inserir _ _ _ h)
    | some rec0 =>
      simp only []
      refine ih _ _ ?_
      rw [isBST_setDisponivel]
      exact isBST_inserir _ _ _ h

theorem inserirLivro_eq (t : Livro) (i : Int) (ti au : List Char) :
    inserirLivro t i ti au = inserirLivroRecursivo t i ti au := rfl

theorem buscarLivro_eq (t : Livro) (i : Int) :
    buscarLivro t i = buscarLivroRecursivo t i := rfl

theorem removerLivro_eq (t : Livro) (i : Int) :
    removerLivro t i = removerLivroRecursivo t i := rfl

/-! ### The claims -/

/-- Claim C1 (amended): for every catalog state satisfying the BST invariant
and whose title and author fields fit the persisted line format (nonempty, no
bar, no newline), persisting and then restoring into a fresh empty catalog
yields exactly the same multiset of records — same ids, titles, authors and
availability — whatever values the scanner locals held initially; the tree
shape may differ.  (The amendment is forced: a record whose title is empty —
or contains a bar or newline — produces a line `sscanf` cannot fully parse,
and the restored record picks up leftover scanner state, see the
counterexample.) -/
theorem C1_persistir_restaurar_conjunto (t : Livro) (st : ScanState)
    (hb : isBST t = true) (hg : ∀ r ∈ listarLivrosRecursivo t, GoodReg r) :
    listarLivrosRecursivo (carregarLivros criarBiblioteca (salvarLivros t) st) ~
      listarLivrosRecursivo t := by
  obtain ⟨regs, hmap, hperm⟩ := salvarLivros_eq_map_perm t
  have hgood : ∀ x ∈ regs, GoodReg x := fun x hx => hg x (hperm.subset hx)
  rw [hmap, carregar_formatLines _ _ hgood]
  have hpair : (regs.map Registro.id).Pairwise (· ≠ ·) := by
    have h2 : ((listarLivrosRecursivo t).map Registro.id).Pairwise (· ≠ ·) :=
      (sorted_chaves hb).imp fun h => ne_of_lt h
    exact ((hperm.map Registro.id).pairwise_iff fun hab => Ne.symm hab).mpr h2
  have hfresh : ∀ x ∈ regs, x.id ∉ chaves criarBiblioteca := by
    intro x hx
    simp [criarBiblioteca, chaves]
  obtain ⟨-, hres⟩ := carregarRegistros_fresh criarBiblioteca rfl hfresh hpair
  refine hres.trans ?_
  simpa [criarBiblioteca] using hperm

/-- Claim C1 fails as stated: the catalog with the single record
`(5, "", "A", available)` is a legal catalog state, but its persisted line
`5||A|1` stops parsing at the empty title, so the restored record keeps the
scanner's leftover title/author/availability — here `Z`/`Z`/0 — and the
round trip does not reproduce the record set. -/
theorem C1_contraexemplo :
    ¬ (listarLivrosRecursivo (carregarLivros criarBiblioteca
        (salvarLivros (Livro.node 5 [] ['A'] 1 Livro.nil Livro.nil))
        ⟨0, ['Z'], ['Z'], 0⟩) ~
      listarLivrosRecursivo (Livro.node 5 [] ['A'] 1 Livro.nil Livro.nil)) := by
  have hline : salvarLivros (Livro.node 5 [] ['A'] 1 Livro.nil Livro.nil) =
      [['5', '|', '|', 'A', '|', '1', '\n']] := by
    simp [salvarLivros, salvarLivrosBalanceado, salvarBalanceadoRecursivo,
      armazenarLivrosEmOrdem, contarLivros, formatLine, intChars, natChars,
      digitChar]
  rw [hline]
  decide

/-- Concrete instance of the amended claim C1: a two-record catalog with
well-formed text fields round-trips to the same record set. -/
theorem C1_testemunha :
    listarLivrosRecursivo (carregarLivros criarBiblioteca
      (salvarLivros (Livro.node 2 ['B'] ['C'] 1
        (Livro.node 1 ['T'] ['A'] 0 Livro.nil Livro.nil) Livro.nil))
      ⟨0, [], [], 0⟩) ~
    listarLivrosRecursivo (Livro.node 2 ['B'] ['C'] 1
      (Livro.node 1 ['T'] ['A'] 0 Livro.nil Livro.nil) Livro.nil) :=
  C1_persistir_restaurar_conjunto _ _ (by decide) (by decide)

/-- Claim C2: the strict BST invariant — in every node all left-subtree ids
strictly smaller, all right-subtree ids strictly larger (hence no duplicate
id) — holds after every insert, after every remove, and after every
load-from-file rebuild, starting from any catalog satisfying it. -/
theorem C2_invariante_bst (t : Livro) (i : Int) (ti au : List Char)
    (linhas : List (List Char)) (st : ScanState) (hb : isBST t = true) :
    isBST (inserirLivro t i ti au) = true ∧
    isBST (removerLivro t i) = true ∧
    isBST (carregarLivros t linhas st) = true :=
  ⟨isBST_inserir i ti au hb, isBST_remover i hb,
    isBST_carregarLivros linhas t st hb⟩

/-- Concrete instance of claim C2: invariant preserved by an insert, a
remove and a load on a one-record catalog. -/
theorem C2_testemunha :
    isBST (inserirLivro (Livro.node 2 ['T'] ['A'] 1 Livro.nil Livro.nil)
      1 ['U'] ['B']) = true ∧
    isBST (removerLivro (Livro.node 2 ['T'] ['A'] 1 Livro.nil Livro.nil) 1) = true ∧
    isBST (carregarLivros (Livro.node 2 ['T'] ['A'] 1 Livro.nil Livro.nil)
      [['7', '|', 'X', '|', 'Y', '|', '0', '\n']] ⟨0, [], [], 0⟩) = true :=
  C2_invariante_bst _ 1 ['U'] ['B'] _ _ (by decide)

/-- Claim C3: for every sequence of inserts with pairwise-distinct ids
applied to an empty catalog, `find` returns exactly the record inserted for
each id (same title, author, availability flag 1), and the in-order
traversal visits every inserted record, in strictly ascending id order. -/
theorem C3_buscar_e_ordem (l : List (Int × List Char × List Char))
    (hdist : (l.map Prod.fst).Pairwise (· ≠ ·)) :
    (∀ e ∈ l, buscarLivro (inserirLista l) e.1 = some ⟨e.1, e.2.1, e.2.2, 1⟩) ∧
    listarLivrosRecursivo (inserirLista l) ~
      l.map (fun e => ⟨e.1, e.2.1, e.2.2, 1⟩) ∧
    (chaves (inserirLista l)).Pairwise (· < ·) := by
  obtain ⟨hbst, hperm, hbusca⟩ := foldl_inserir_props criarBiblioteca rfl
    (by intro e he; simp [criarBiblioteca]) hdist
  refine ⟨hbusca, ?_, sorted_chaves hbst⟩
  simpa [criarBiblioteca] using hperm

/-- Concrete instance of claim C3 on three distinct ids inserted out of
order. -/
theorem C3_testemunha :
    (∀ e ∈ [((2 : Int), ['T'], ['A']), (1, ['U'], ['B']), (3, ['V'], ['C'])],
      buscarLivro (inserirLista
        [((2 : Int), ['T'], ['A']), (1, ['U'], ['B']), (3, ['V'], ['C'])]) e.1 =
        some ⟨e.1, e.2.1, e.2.2, 1⟩) ∧
    listarLivrosRecursivo (inserirLista
        [((2 : Int), ['T'], ['A']), (1, ['U'], ['B']), (3, ['V'], ['C'])]) ~
      [((2 : Int), ['T'], ['A']), (1, ['U'], ['B']), (3, ['V'], ['C'])].map
        (fun e => ⟨e.1, e.2.1, e.2.2, 1⟩) ∧
    (chaves (inserirLista
      [((2 : Int), ['T'], ['A']), (1, ['U'], ['B']), (3, ['V'], ['C'])])).Pairwise
        (· < ·) :=
  C3_buscar_e_ordem _ (by decide)

/-- Claim C4: inserting an id already present in a catalog (that satisfies
the BST invariant) is a strict no-op — the tree, hence the existing record's
title, author and availability, is unchanged and no node is added. -/
theorem C4_inserir_duplicado (t : Livro) (i : Int) (ti au : List Char)
    (hb : isBST t = true) (hmem : i ∈ chaves t) :
    inserirLivro t i ti au = t := by
  have hsome := mem_chaves_buscar_isSome hb hmem
  cases hs : buscarLivroRecursivo t i with
  | none => rw [hs] at hsome; simp at hsome
  | some r => exact inserir_encontrado ti au hs

/-- Concrete instance of claim C4: re-inserting id 2 with a different title
and author leaves the catalog (including the availability flag 0)
untouched. -/
theorem C4_testemunha :
    inserirLivro (Livro.node 2 ['T'] ['A'] 0 Livro.nil Livro.nil) 2 ['X'] ['Y'] =
      Livro.node 2 ['T'] ['A'] 0 Livro.nil Livro.nil :=
  C4_inserir_duplicado _ 2 ['X'] ['Y'] (by decide) (by decide)

/-- Claim C5: removing an id present in a catalog satisfying the BST
invariant makes a subsequent `find` on that id report not-found, decreases
`count` by exactly one, and keeps the strict BST invariant. -/
theorem C5_remover_presente (t : Livro) (i : Int)
    (hb : isBST t = true) (hmem : i ∈ chaves t) :
    buscarLivro (removerLivro t i) i = none ∧
    contarLivros (removerLivro t i) + 1 = contarLivros t ∧
    isBST (removerLivro t i) = true := by
  have hbst' := isBST_remover i hb
  have hnotin : i ∉ chaves (removerLivroRecursivo t i) := by
    intro hc
    exact ((mem_chaves_remover hb).mp hc).2 rfl
  refine ⟨?_, ?_, ?_⟩
  · rw [buscarLivro_eq, removerLivro_eq]
    exact (buscar_none_iff hbst').mpr hnotin
  · rw [removerLivro_eq, contar_eq_length, contar_eq_length,
      listar_remover i hb]
    exact length_filter_ne_of_mem
      ((sorted_chaves hb).imp fun h => ne_of_lt h) hmem
  · rw [removerLivro_eq]
    exact hbst'

/-- Concrete instance of claim C5: removing the root (the two-children case)
of a three-record catalog. -/
theorem C5_testemunha :
    buscarLivro (removerLivro (Livro.node 2 ['T'] ['A'] 1
      (Livro.node 1 ['U'] ['B'] 1 Livro.nil Livro.nil)
      (Livro.node 3 ['V'] ['C'] 1 Livro.nil Livro.nil)) 2) 2 = none ∧
    contarLivros (removerLivro (Livro.node 2 ['T'] ['A'] 1
      (Livro.node 1 ['U'] ['B'] 1 Livro.nil Livro.nil)
      (Livro.node 3 ['V'] ['C'] 1 Livro.nil Livro.nil)) 2) + 1 =
      contarLivros (Livro.node 2 ['T'] ['A'] 1
        (Livro.node 1 ['U'] ['B'] 1 Livro.nil Livro.nil)
        (Livro.node 3 ['V'] ['C'] 1 Livro.nil Livro.nil)) ∧
    isBST (removerLivro (Livro.node 2 ['T'] ['A'] 1
      (Livro.node 1 ['U'] ['B'] 1 Livro.nil Livro.nil)
      (Livro.node 3 ['V'] ['C'] 1 Livro.nil Livro.nil)) 2) = true :=
  C5_remover_presente _ 2 (by decide) (by decide)

/-- Claim C6: inserting ids 1..7 in increasing order builds a right-leaning
chain; persisting it and restoring into a fresh catalog produces exactly the
perfectly balanced tree with root 4, left subtree root 2, right subtree root
6, and the leaves 1, 3, 5, 7 all at depth 2 — for any title/author texts
that fit the persisted line format. -/
theorem C6_reconstrucao_balanceada
    (t1 a1 t2 a2 t3 a3 t4 a4 t5 a5 t6 a6 t7 a7 : List Char) (st : ScanState)
    (hg : ∀ s ∈ [t1, a1, t2, a2, t3, a3, t4, a4, t5, a5, t6, a6, t7, a7],
      GoodStr s) :
    carregarLivros criarBiblioteca
      (salvarLivros (inserirLista [(1, t1, a1), (2, t2, a2), (3, t3, a3),
        (4, t4, a4), (5, t5, a5), (6, t6, a6), (7, t7, a7)])) st =
    Livro.node 4 t4 a4 1
      (Livro.node 2 t2 a2 1 (Livro.node 1 t1 a1 1 Livro.nil Livro.nil)
        (Livro.node 3 t3 a3 1 Livro.nil Livro.nil))
      (Livro.node 6 t6 a6 1 (Livro.node 5 t5 a5 1 Livro.nil Livro.nil)
        (Livro.node 7 t7 a7 1 Livro.nil Livro.nil)) := by
  have hlines : salvarLivros (inserirLista [(1, t1, a1), (2, t2, a2),
      (3, t3, a3), (4, t4, a4), (5, t5, a5), (6, t6, a6), (7, t7, a7)]) =
      [(⟨4, t4, a4, 1⟩ : Registro), ⟨2, t2, a2, 1⟩, ⟨1, t1, a1, 1⟩,
        ⟨3, t3, a3, 1⟩, ⟨6, t6, a6, 1⟩, ⟨5, t5, a5, 1⟩,
        ⟨7, t7, a7, 1⟩].map formatLine := by
    simp [salvarLivros, salvarLivrosBalanceado, salvarBalanceadoRecursivo,
      armazenarLivrosEmOrdem, contarLivros, inserirLista, inserirLivro,
      inserirLivroRecursivo, criarLivro, criarBiblioteca]
  have hgood : ∀ x ∈ [(⟨4, t4, a4, 1⟩ : Registro), ⟨2, t2, a2, 1⟩,
      ⟨1, t1, a1, 1⟩, ⟨3, t3, a3, 1⟩, ⟨6, t6, a6, 1⟩, ⟨5, t5, a5, 1⟩,
      ⟨7, t7, a7, 1⟩], GoodReg x := by
    intro x hx
    simp only [List.mem_cons, List.not_mem_nil, or_false] at hx
    rcases hx with rfl | rfl | rfl | rfl | rfl | rfl | rfl <;>
      exact ⟨hg _ (by simp), hg _ (by simp)⟩
  rw [hlines, carregar_formatLines _ _ hgood]
  rfl

/-- Concrete instance of claim C6 with titles `T1..T7` and authors
`A1..A7`. -/
theorem C6_testemunha :
    carregarLivros criarBiblioteca
      (salvarLivros (inserirLista
        [(1, ['T', '1'], ['A', '1']), (2, ['T', '2'], ['A', '2']),
         (3, ['T', '3'], ['A', '3']), (4, ['T', '4'], ['A', '4']),
         (5, ['T', '5'], ['A', '5']), (6, ['T', '6'], ['A', '6']),
         (7, ['T', '7'], ['A', '7'])])) ⟨0, [], [], 0⟩ =
    Livro.node 4 ['T', '4'] ['A', '4'] 1
      (Livro.node 2 ['T', '2'] ['A', '2'] 1
        (Livro.node 1 ['T', '1'] ['A', '1'] 1 Livro.nil Livro.nil)
        (Livro.node 3 ['T', '3'] ['A', '3'] 1 Livro.nil Livro.nil))
      (Livro.node 6 ['T', '6'] ['A', '6'] 1
        (Livro.node 5 ['T', '5'] ['A', '5'] 1 Livro.nil Livro.nil)
        (Livro.node 7 ['T', '7'] ['A', '7'] 1 Livro.nil Livro.nil)) :=
  C6_reconstrucao_balanceada _ _ _ _ _ _ _ _ _ _ _ _ _ _ _ (by decide)

/-- Claim C7 is violated by the code: `carregarLivros` ignores the `sscanf`
return value, so a malformed line is NOT skipped.  On the file
`1|A|B|1\n` then `42|X\n` (second line missing the author and availability
fields), the loop inserts a second, fabricated record: id 42 parses, the
title takes the partial match `X\n`, and the author is the stale value `B`
left over from the previous line — the catalog ends with 2 records instead
of 1. -/
theorem C7_linha_malformada_insere :
    contarLivros (carregarLivros criarBiblioteca
      [['1', '|', 'A', '|', 'B', '|', '1', '\n'], ['4', '2', '|', 'X', '\n']]
      ⟨0, [], [], 0⟩) = 2 ∧
    buscarLivro (carregarLivros criarBiblioteca
      [['1', '|', 'A', '|', 'B', '|', '1', '\n'], ['4', '2', '|', 'X', '\n']]
      ⟨0, [], [], 0⟩) 42 = some ⟨42, ['X', '\n'], ['B'], 1⟩ := by
  decide

/-- Claim C8: `borrow` has exactly three outcomes — not-found on an absent
id (tree unchanged), unavailable on a present but borrowed record (tree
unchanged), success on a present available record (only that record's flag
flips to 0); and in the success case an immediately repeated borrow reports
unavailable, a return then succeeds, and a further return reports
already-available. -/
theorem C8_emprestar_devolver (t : Livro) (i : Int) :
    (buscarLivro t i = none → emprestarLivro t i = (t, Mensagem.naoEncontrado)) ∧
    (∀ r, buscarLivro t i = some r → r.disponivel = 0 →
      emprestarLivro t i = (t, Mensagem.indisponivel)) ∧
    (∀ r, buscarLivro t i = some r → r.disponivel ≠ 0 →
      emprestarLivro t i = (setDisponivel t i 0, Mensagem.sucesso) ∧
      buscarLivro (emprestarLivro t i).1 i = some ⟨i, r.titulo, r.autor, 0⟩ ∧
      (∀ j, j ≠ i → buscarLivro (emprestarLivro t i).1 j = buscarLivro t j) ∧
      emprestarLivro (emprestarLivro t i).1 i =
        ((emprestarLivro t i).1, Mensagem.indisponivel) ∧
      devolverLivro (emprestarLivro t i).1 i =
        (setDisponivel (emprestarLivro t i).1 i 1, Mensagem.sucesso) ∧
      devolverLivro (devolverLivro (emprestarLivro t i).1 i).1 i =
        ((devolverLivro (emprestarLivro t i).1 i).1, Mensagem.jaDisponivel)) := by
  refine ⟨?_, ?_, ?_⟩
  · intro h
    simp [emprestarLivro, h]
  · intro r h h0
    simp [emprestarLivro, h, h0]
  · intro r h h0
    have hid : r.id = i := buscar_id h
    have he : emprestarLivro t i = (setDisponivel t i 0, Mensagem.sucesso) := by
      simp [emprestarLivro, h, h0]
    have hb1 : buscarLivro (setDisponivel t i 0) i =
        some ⟨i, r.titulo, r.autor, 0⟩ := by
      have hx := buscar_setDisponivel_self 0 h
      rw [hid] at hx
      exact hx
    refine ⟨he, ?_, ?_, ?_, ?_, ?_⟩
    · rw [he]
      exact hb1
    · intro j hj
      rw [he]
      exact buscar_setDisponivel_other 0 hj
    · rw [he]
      simp [emprestarLivro, hb1]
    · rw [he]
      simp [devolverLivro, hb1]
    · rw [he]
      have hd1 : devolverLivro (setDisponivel t i 0) i =
          (setDisponivel (setDisponivel t i 0) i 1, Mensagem.sucesso) := by
        simp [devolverLivro, hb1]
      rw [hd1]
      have hb2 : buscarLivro (setDisponivel (setDisponivel t i 0) i 1) i =
          some ⟨i, r.titulo, r.autor, 1⟩ := by
        have hx := buscar_setDisponivel_self 1 hb1
        simpa using hx
      simp [devolverLivro, hb2]

/-- Concrete instance of claim C8: the borrow/borrow/return/return script on
a one-record available catalog. -/
theorem C8_testemunha :
    emprestarLivro (Livro.node 1 ['T'] ['A'] 1 Livro.nil Livro.nil) 1 =
      (setDisponivel (Livro.node 1 ['T'] ['A'] 1 Livro.nil Livro.nil) 1 0,
        Mensagem.sucesso) ∧
    (emprestarLivro (emprestarLivro
      (Livro.node 1 ['T'] ['A'] 1 Livro.nil Livro.nil) 1).1 1).2 =
      Mensagem.indisponivel ∧
    (devolverLivro (emprestarLivro
      (Livro.node 1 ['T'] ['A'] 1 Livro.nil Livro.nil) 1).1 1).2 =
      Mensagem.sucesso ∧
    (devolverLivro (devolverLivro (emprestarLivro
      (Livro.node 1 ['T'] ['A'] 1 Livro.nil Livro.nil) 1).1 1).1 1).2 =
      Mensagem.jaDisponivel := by
  obtain ⟨-, -, h3⟩ :=
    C8_emprestar_devolver (Livro.node 1 ['T'] ['A'] 1 Livro.nil Livro.nil) 1
  obtain ⟨he, -, -, h2, hd, hj⟩ :=
    h3 ⟨1, ['T'], ['A'], 1⟩ (by decide) (by decide)
  exact ⟨he, by rw [h2], by rw [hd], by rw [hj]⟩

/-- Claim C9: removing an id absent from the catalog is a strict no-op — the
tree is returned unchanged, so every node, every record and the count are
identical. -/
theorem C9_remover_inexistente (t : Livro) (i : Int) (h : i ∉ chaves t) :
    removerLivro t i = t ∧
    contarLivros (removerLivro t i) = contarLivros t := by
  have he : removerLivro t i = t := remover_ausente h
  exact ⟨he, by rw [he]⟩

/-- Concrete instance of claim C9: removing absent id 5 from a two-record
catalog changes nothing. -/
theorem C9_testemunha :
    removerLivro (Livro.node 2 ['T'] ['A'] 1
      (Livro.node 1 ['U'] ['B'] 0 Livro.nil Livro.nil) Livro.nil) 5 =
      Livro.node 2 ['T'] ['A'] 1
        (Livro.node 1 ['U'] ['B'] 0 Livro.nil Livro.nil) Livro.nil ∧
    contarLivros (removerLivro (Livro.node 2 ['T'] ['A'] 1
      (Livro.node 1 ['U'] ['B'] 0 Livro.nil Livro.nil) Livro.nil) 5) =
      contarLivros (Livro.node 2 ['T'] ['A'] 1
        (Livro.node 1 ['U'] ['B'] 0 Livro.nil Livro.nil) Livro.nil) :=
  C9_remover_inexistente _ 5 (by decide)

/-- Claim C10: when a restored line carries an id already present in the
catalog, the duplicate-ignoring insert preserves the existing record's title
and author, but the loader then looks the id up and overwrites its
availability flag with the value parsed from that line: the whole effect of
the line is `setDisponivel`, the looked-up record keeps its title/author and
carries the new flag, and the key set is unchanged. -/
theorem C10_disponibilidade_sobrescrita (t : Livro) (i d' : Int)
    (ti' au' : List Char) (r : Registro) (st : ScanState)
    (hfound : buscarLivro t i = some r) (h1 : GoodStr ti') (h2 : GoodStr au') :
    carregarLivros t [formatLine ⟨i, ti', au', d'⟩] st = setDisponivel t i d' ∧
    buscarLivro (setDisponivel t i d') i = some ⟨i, r.titulo, r.autor, d'⟩ ∧
    chaves (setDisponivel t i d') = chaves t := by
  have hid : r.id = i := buscar_id hfound
  have hgood : ∀ x ∈ [(⟨i, ti', au', d'⟩ : Registro)], GoodReg x := by
    intro x hx
    simp only [List.mem_singleton] at hx
    subst hx
    exact ⟨h1, h2⟩
  have hload : carregarLivros t [formatLine ⟨i, ti', au', d'⟩] st =
      setDisponivel t i d' := by
    have hm : [formatLine ⟨i, ti', au', d'⟩] =
        [(⟨i, ti', au', d'⟩ : Registro)].map formatLine := rfl
    rw [hm, carregar_formatLines _ _ hgood]
    show carregarRegistro t ⟨i, ti', au', d'⟩ = setDisponivel t i d'
    simp only [carregarRegistro]
    rw [inserirLivro_eq, inserir_encontrado ti' au' hfound]
  refine ⟨hload, ?_, chaves_setDisponivel t i d'⟩
  have hx := buscar_setDisponivel_self d' hfound
  rw [hid] at hx
  exact hx

/-- Concrete instance of claim C10: a duplicate line for id 1 flips the
stored record's availability to 0 while keeping its title and author. -/
theorem C10_testemunha :
    carregarLivros (Livro.node 1 ['T'] ['A'] 1 Livro.nil Livro.nil)
      [formatLine ⟨1, ['X'], ['Y'], 0⟩] ⟨0, [], [], 0⟩ =
      setDisponivel (Livro.node 1 ['T'] ['A'] 1 Livro.nil Livro.nil) 1 0 ∧
    buscarLivro (setDisponivel
      (Livro.node 1 ['T'] ['A'] 1 Livro.nil Livro.nil) 1 0) 1 =
      some ⟨1, ['T'], ['A'], 0⟩ ∧
    chaves (setDisponivel
      (Livro.node 1 ['T'] ['A'] 1 Livro.nil Livro.nil) 1 0) =
      chaves (Livro.node 1 ['T'] ['A'] 1 Livro.nil Livro.nil) :=
  C10_disponibilidade_sobrescrita _ 1 0 ['X'] ['Y'] ⟨1, ['T'], ['A'], 1⟩ _
    (by decide) (by decide) (by decide)

end Biblioteca
